import Mathlib

/-!
Shallow embedding of `src/src/utils/generate-model.ts` (the generic
record-transformation engine `generateModel` and the specialized layer
`generateDataModel`), together with theorems settling the frozen claims
about it.

JavaScript runtime values are modelled by the inductive type `JSVal`;
the JavaScript `undefined` is the constructor `JSVal.undef`, so a
variable of type `any` is a plain `JSVal`.  Objects are modelled as
association lists of string keys (plain records without a prototype
chain); arrays are modelled with their index keys and `length`.
Functions passed as configuration (transformers, the post-process hook)
are modelled as Lean functions over `JSVal`.
-/

namespace GenModel

/-- A JavaScript runtime value.  `undef` is the JavaScript `undefined`. -/
inductive JSVal where
  | undef : JSVal
  | null : JSVal
  | bool : Bool → JSVal
  | num : Int → JSVal
  | str : String → JSVal
  | arr : List JSVal → JSVal
  | obj : List (String × JSVal) → JSVal

/-- Whether the value is the JavaScript `undefined` (the test `v === undefined`). -/
def JSVal.isUndef : JSVal → Bool
  | .undef => true
  | _ => false

/-- Whether the value is a JavaScript array (the test `Array.isArray(v)`). -/
def JSVal.isArray : JSVal → Bool
  | .arr _ => true
  | _ => false

/-- JavaScript truthiness of a value (the coercion `!!v`). -/
def JSVal.truthy : JSVal → Bool
  | .undef => false
  | .null => false
  | .bool b => b
  | .num n => n != 0
  | .str s => s != ""
  | .arr _ => true
  | .obj _ => true

/-- The test `v && typeof v === 'object'` used by the engine before a
`key in v` lookup: true exactly for (non-null) objects and arrays. -/
def JSVal.isObjectLike : JSVal → Bool
  | .arr _ => true
  | .obj _ => true
  | _ => false

/-- Lookup in an association list by string key (first match). -/
def alookup {α : Type} : List (String × α) → String → Option α
  | [], _ => none
  | (k, v) :: rest, key => if k == key then some v else alookup rest key

/-- The JavaScript assignment `m[key] = v` on an object modelled as an
association list: replace in place when the key is present, else append. -/
def setField {α : Type} : List (String × α) → String → α → List (String × α)
  | [], key, v => [(key, v)]
  | (k, w) :: rest, key, v =>
    if k == key then (key, v) :: rest else (k, w) :: setField rest key v

/-- Property lookup `v[key]` combined with the membership test `key in v`:
`some w` when the key is present (its value may itself be `undef`), `none`
when the key is absent or `v` is not an object or array.  Arrays expose
their canonical index keys and `length`, as in JavaScript. -/
def JSVal.getKey : JSVal → String → Option JSVal
  | .obj fields, key => alookup fields key
  | .arr xs, key =>
    if key == "length" then some (.num xs.length)
    else
      match key.toNat? with
      | some n => if toString n == key then xs[n]? else none
      | none => none
  | _, _ => none

/-- A JavaScript target model under construction: an open record of
assigned fields. -/
abbrev Model := List (String × JSVal)

/-- A field-mapping table entry value: `some keys` models an array of
candidate source keys, `none` models an absent or non-array entry
(the engine skips those). -/
abbrev FieldMapping := List (String × Option (List String))

/-- The transformers table: field name to transformer function
`(value, sourceItem) => value`. -/
abbrev Transformers := List (String × (JSVal → JSVal → JSVal))

mutual

/-- String coercion performed by the template literal
`\x60${model.link}${mergedOptions.refParam}\x60`. -/
def JSVal.toJSString : JSVal → String
  | .undef => "undefined"
  | .null => "null"
  | .bool true => "true"
  | .bool false => "false"
  | .num n => toString n
  | .str s => s
  | .arr xs => JSVal.joinComma xs
  | .obj _ => "[object Object]"

/-- Array-to-string coercion: the elements joined by commas, with null and
undefined elements rendered empty, as `Array.prototype.join` does. -/
def JSVal.joinComma : List JSVal → String
  | [] => ""
  | v :: rest =>
    (match v with
     | .undef => ""
     | .null => ""
     | w => JSVal.toJSString w) ++
    (match rest with
     | [] => ""
     | _ => "," ++ JSVal.joinComma rest)

end

/-- The test `key.includes('.')`: whether the string contains a dot. -/
def containsDot (s : String) : Bool := s.data.contains '.'

/-- `key.split('.')` on the character list: split at every dot, keeping
empty segments, as the JavaScript `String.prototype.split` does. -/
def splitCharsOnDot : List Char → List (List Char)
  | [] => [[]]
  | c :: rest =>
    let r := splitCharsOnDot rest
    if c == '.' then [] :: r
    else
      match r with
      | [] => [[c]]
      | h :: t => (c :: h) :: t

/-- `key.split('.')`. -/
def splitOnDot (s : String) : List String :=
  (splitCharsOnDot s.data).map (fun cs => String.mk cs)

/-- The nested traversal loop of `generateModel` (lines 76-86 of
`generate-model.ts`): starting from the record, follow the path segments;
at each segment the current value must satisfy
`nestedValue && typeof nestedValue === 'object' && part in nestedValue`,
otherwise the traversal fails (`found = false`).  Returns `some` of the
final value (which may be `undef`) on success, `none` on failure. -/
def traverse : JSVal → List String → Option JSVal
  | v, [] => some v
  | v, part :: rest =>
    if v.isObjectLike then
      match v.getKey part with
      | some next => traverse next rest
      | none => none
    else none

/-- The candidate-scanning loop of `generateModel` (lines 71-96 of
`generate-model.ts`).  `value` starts as `undefined`; candidates are taken
in order.  A candidate containing a dot is split and traversed; the loop
breaks with the traversed value only when the traversal succeeded and the
value is not `undefined`.  Otherwise, when the record is object-like and
contains the candidate as a key, the loop breaks with that value — even
when that value is `undefined`.  In every other case the scan continues.
The result is the content of `value` when the loop ends. -/
def resolveValue (item : JSVal) : List String → JSVal
  | [] => .undef
  | key :: rest =>
    if containsDot key then
      match traverse item (splitOnDot key) with
      | some nested => if nested.isUndef then resolveValue item rest else nested
      | none => resolveValue item rest
    else
      if item.isObjectLike then
        match item.getKey key with
        | some v => v
        | none => resolveValue item rest
      else resolveValue item rest

/-- Lines 70-101 of `generate-model.ts`: scan the candidates, then apply
the special rule `if (value === undefined && field === 'id') value = index`. -/
def resolveFieldValue (item : JSVal) (index : Nat) (field : String)
    (keys : List String) : JSVal :=
  let value := resolveValue item keys
  if value.isUndef && field == "id" then .num index else value

/-- Lines 67-113 of `generate-model.ts`: processing of one entry
`(field, sourceFields)` of the field-mapping table against the working
model.  A `none` entry models `!sourceFields || !Array.isArray(sourceFields)`
and is skipped.  Otherwise the value is resolved (with the `id` index
fallback), the registered transformer (if any) is applied to
`(value, item)`, and the result is assigned onto the model unless it is
`undefined`. -/
def processField (ts : Transformers) (item : JSVal) (index : Nat)
    (model : Model) (field : String) (sourceFields : Option (List String)) : Model :=
  match sourceFields with
  | none => model
  | some keys =>
    let value := resolveFieldValue item index field keys
    let value :=
      match alookup ts field with
      | some f => f value item
      | none => value
    if value.isUndef then model else setField model field value

/-- The model built for one record before the post-process hook runs:
start from a shallow copy of the defaults and fold the field-mapping
entries in table order (lines 64-113 of `generate-model.ts`). -/
def modelBeforePP (fieldMapping : FieldMapping) (ts : Transformers)
    (defaults : Model) (item : JSVal) (index : Nat) : Model :=
  fieldMapping.foldl (fun m entry => processField ts item index m entry.1 entry.2) defaults

/-- The transform options of `generateModel`.  Each field is `none` when
the caller omitted it, mirroring the optional properties of the
TypeScript interface. -/
structure TransformOptions where
  transformers : Option Transformers
  defaults : Option Model
  postProcess : Option (Model → JSVal → Nat → Model)

/-- The empty options object `{}`. -/
def noOptions : TransformOptions := ⟨none, none, none⟩

/-- The body of the `data.map((item, index) => ...)` callback of
`generateModel`: build the model for one record and apply the
post-process hook when one is configured. -/
def generateOne (fieldMapping : FieldMapping) (options : TransformOptions)
    (item : JSVal) (index : Nat) : Model :=
  let model := modelBeforePP fieldMapping (options.transformers.getD [])
    (options.defaults.getD []) item index
  match options.postProcess with
  | some pp => pp model item index
  | none => model

/-- `data.map((item, index) => ...)`: map with the positional index,
starting from a given index. -/
def mapWithIdx {α β : Type} (f : α → Nat → β) : List α → Nat → List β
  | [], _ => []
  | a :: as, i => f a i :: mapWithIdx f as (i + 1)

/-- `generateModel(data, fieldMapping, options)` from `generate-model.ts`.
When `data` fails the guard `!data || !Array.isArray(data)` the result is
`[]`; otherwise every record is mapped to one model.  The merge of the
options with the engine defaults (`options.transformers || \x7b\x7d`,
`options.defaults || \x7b\x7d`) is the `getD []` inside `generateOne`. -/
def generateModel (data : JSVal) (fieldMapping : FieldMapping)
    (options : TransformOptions) : List Model :=
  match data with
  | .arr items => mapWithIdx (generateOne fieldMapping options) items 0
  | _ => []

/-- The default field mapping `defaultDataModelMapping` of
`generate-model.ts` (lines 151-162). -/
def defaultDataModelMapping : FieldMapping :=
  [ ("id", some ["collectionId", "guid", "_id", "id"]),
    ("title", some ["title"]),
    ("domain", some ["domain"]),
    ("author", some ["author", "creator"]),
    ("description", some ["description", "excerpt", "content", "summary"]),
    ("cover", some ["cover", "image", "thumbnail"]),
    ("link", some ["link", "url"]),
    ("lastUpdate", some ["lastUpdate", "pubDate", "updated", "date"]),
    ("tags", some ["tags", "categories", "keywords"]),
    ("value", some ["value"]) ]

/-- The options of `generateDataModel`: the generic transform options
extended with the two link-decoration knobs.  Each field is `none` when
the caller omitted it. -/
structure DataModelTransformOptions where
  transformers : Option Transformers
  defaults : Option Model
  postProcess : Option (Model → JSVal → Nat → Model)
  addRefToLink : Option Bool
  refParam : Option String

/-- The empty options object `{}` for `generateDataModel`. -/
def noDMOptions : DataModelTransformOptions := ⟨none, none, none, none, none⟩

/-- The post-processor closure built inside `generateDataModel`
(lines 191-196): when `model.link` is truthy and `mergedOptions.addRefToLink`
and `mergedOptions.refParam` are truthy, reassign
`model.link = \x60${model.link}${mergedOptions.refParam}\x60`;
otherwise return the model unchanged. -/
def dataModelPostProcess (addRefToLink : Option Bool) (refParam : Option String)
    (model : Model) (_item : JSVal) (_index : Nat) : Model :=
  let link := (alookup model "link").getD .undef
  if link.truthy && addRefToLink.getD false && (refParam.getD "" != "") then
    setField model "link" (.str (link.toJSString ++ refParam.getD ""))
  else model

/-- The mapping merge of `generateDataModel` (lines 199-208): start from a
shallow copy of the base mapping and, for every caller entry whose value
passes `value && Array.isArray(value)` (modelled by `some`), assign it over
the merged mapping. -/
def mergeMappings (base : FieldMapping) (user : FieldMapping) : FieldMapping :=
  user.foldl
    (fun m entry =>
      match entry.2 with
      | some v => setField m entry.1 (some v)
      | none => m)
    base

/-- `generateDataModel(data, fieldMapping, options)` from
`generate-model.ts` (lines 171-219).  The option merge
`\x7b...defaultOptions, ...options, transformers: \x7b...options.transformers\x7d,
defaults: \x7b...options.defaults\x7d\x7d` is modelled field by field (a field the
caller omitted falls back to the default options, where
`addRefToLink: true` and `refParam: "?ref=bookmarksfor.dev"`).  The merged
options also carry `options.postProcess`, but the final call
`generateModel(data, mergedMapping, \x7b...mergedOptions, postProcess\x7d)`
unconditionally overrides it with the link-decoration closure, so the
caller hook never reaches the engine. -/
def generateDataModel (data : JSVal) (fieldMapping : FieldMapping)
    (options : DataModelTransformOptions) : List Model :=
  let mergedAddRef :=
    match options.addRefToLink with
    | some b => some b
    | none => some true
  let mergedRefParam :=
    match options.refParam with
    | some s => some s
    | none => some "?ref=bookmarksfor.dev"
  let mergedTransformers := some (options.transformers.getD [])
  let mergedDefaults := some (options.defaults.getD [])
  let postProcess := dataModelPostProcess mergedAddRef mergedRefParam
  let mergedMapping := mergeMappings defaultDataModelMapping fieldMapping
  generateModel data mergedMapping ⟨mergedTransformers, mergedDefaults, some postProcess⟩

/-!
Specification-level definitions.  The two functions below are written
from the words of claim C1 (not from the source); they exist to be
compared with `resolveValue`.
-/

/-- The candidate scan as claim C1 words it: candidates are scanned in
list order; the scan stops at the first candidate that yields a value
other than strict undefined, and a candidate yielding undefined causes
the scan to proceed to the next candidate.  A dot candidate yields its
strict traversal result (undefined on failure); a direct candidate
yields the value of the key when the record is object-like and contains
it (undefined otherwise). -/
def specResolveValue (item : JSVal) : List String → JSVal
  | [] => .undef
  | key :: rest =>
    let y :=
      if containsDot key then (traverse item (splitOnDot key)).getD .undef
      else if item.isObjectLike then (item.getKey key).getD .undef
      else .undef
    if y.isUndef then specResolveValue item rest else y

/-- The outcome of one candidate under the amended claim C1: `some v`
when the candidate stops the scan with value `v`, `none` when the scan
proceeds to the next candidate.  A dot candidate stops exactly when its
strict traversal yields a defined value; a direct candidate stops
whenever the record is object-like and contains the key, taking that
value even when it is undefined. -/
def candidateHit (item : JSVal) (key : String) : Option JSVal :=
  if containsDot key then
    match traverse item (splitOnDot key) with
    | some v => if v.isUndef then none else some v
    | none => none
  else
    if item.isObjectLike then item.getKey key else none

/-- The amended claim C1 scan: the first candidate that stops the scan
supplies the value; later candidates are never consulted; when no
candidate stops the scan the result is undefined. -/
def firstHitResolve (item : JSVal) : List String → JSVal
  | [] => .undef
  | key :: rest =>
    match candidateHit item key with
    | some v => v
    | none => firstHitResolve item rest

/-- Claim C1 counterexample.  The claim says a candidate yielding
undefined causes the scan to proceed to the next candidate.  On the
record `\x7bx: undefined, y: 99\x7d` with candidates `["x", "y"]`, the code
breaks the scan at the direct candidate `x` (the key is present, so
`value = item[key]; break` runs) although it yields undefined, and
resolves undefined; the scan the claim describes would proceed to `y`
and resolve 99. -/
theorem c1_counterexample :
    resolveValue (JSVal.obj [("x", JSVal.undef), ("y", JSVal.num 99)]) ["x", "y"]
      = JSVal.undef ∧
    specResolveValue (JSVal.obj [("x", JSVal.undef), ("y", JSVal.num 99)]) ["x", "y"]
      = JSVal.num 99 :=
  ⟨rfl, rfl⟩

/-- Claim C1 amended: in `generateModel`, candidates are scanned in list
order and the scan stops at the first candidate that hits.  A dot-path
candidate hits exactly when its strict traversal yields a value other
than strict undefined; a direct candidate hits whenever the record is
object-like and contains the key, and then supplies the value of the key
even when that value is undefined (so for a direct candidate only a
missing key, not an undefined value, causes the scan to proceed).  Once
a candidate hits, later candidates in the list are never consulted. -/
theorem c1_amended_first_hit_wins (item : JSVal) (keys : List String) :
    resolveValue item keys = firstHitResolve item keys := by
  induction keys with
  | nil => rfl
  | cons key rest ih =>
    simp only [resolveValue, firstHitResolve, candidateHit]
    cases hd : containsDot key with
    | true =>
      cases ht : traverse item (splitOnDot key) with
      | none => simp [ih]
      | some v => cases hv : v.isUndef <;> simp [hv, ih]
    | false =>
      cases ho : item.isObjectLike with
      | true =>
        cases hk : item.getKey key with
        | none => simp [ho, hk, ih]
        | some v => simp [ho, hk]
      | false => simp [ho, ih]

/-- Length of an indexed map. -/
theorem mapWithIdx_length {α β : Type} (f : α → Nat → β) :
    ∀ (l : List α) (i : Nat), (mapWithIdx f l i).length = l.length
  | [], _ => rfl
  | _ :: as, i => by simp [mapWithIdx, mapWithIdx_length f as (i + 1)]

/-- Element of an indexed map. -/
theorem mapWithIdx_getElem {α β : Type} (f : α → Nat → β) :
    ∀ (l : List α) (i j : Nat),
      (mapWithIdx f l i)[j]? = (l[j]?).map (fun a => f a (i + j))
  | [], _, j => by simp [mapWithIdx]
  | a :: as, i, 0 => by simp [mapWithIdx]
  | a :: as, i, j + 1 => by
    have hj : i + 1 + j = i + (j + 1) := by omega
    simp [mapWithIdx, mapWithIdx_getElem f as (i + 1) j, hj]

/-- Claim C2: for every array input, `generateModel` returns one model
per record, in order: the output length equals the input length, and the
model at every output position is the one generated (by `generateOne`)
from the source record at the same input position with that position as
its index. -/
theorem c2_length_and_order :
    (∀ (items : List JSVal) (fm : FieldMapping) (opts : TransformOptions),
        (generateModel (JSVal.arr items) fm opts).length = items.length) ∧
    (∀ (items : List JSVal) (fm : FieldMapping) (opts : TransformOptions) (j : Nat),
        (generateModel (JSVal.arr items) fm opts)[j]? =
          (items[j]?).map (fun item => generateOne fm opts item j)) := by
  constructor
  · intro items fm opts
    simpa [generateModel] using mapWithIdx_length (generateOne fm opts) items 0
  · intro items fm opts j
    simpa [generateModel] using mapWithIdx_getElem (generateOne fm opts) items 0 j

/-- Claim C3: a candidate key containing a dot is split into path
segments and resolved by strict nested traversal.  At each segment the
current value must be object-like and contain the segment as a key,
otherwise the traversal fails; a failed traversal, or one whose final
value is undefined, causes the scan to proceed to the next candidate,
and a traversal whose final value is defined terminates the scan with
that value.  In particular `\x7ba: \x7bb: 5\x7d\x7d` with candidate `"a.b"` yields 5;
`\x7ba: \x7bb: undefined\x7d\x7d` continues to the next candidate; `\x7ba: null\x7d` with
candidate `"a.b"` fails and proceeds to the next candidate. -/
theorem c3_dot_path_resolution :
    (∀ (item : JSVal) (key : String) (rest : List String),
        containsDot key = true → traverse item (splitOnDot key) = none →
        resolveValue item (key :: rest) = resolveValue item rest) ∧
    (∀ (item : JSVal) (key : String) (rest : List String),
        containsDot key = true → traverse item (splitOnDot key) = some JSVal.undef →
        resolveValue item (key :: rest) = resolveValue item rest) ∧
    (∀ (item : JSVal) (key : String) (rest : List String) (v : JSVal),
        containsDot key = true → traverse item (splitOnDot key) = some v →
        v.isUndef = false → resolveValue item (key :: rest) = v) ∧
    (∀ (v : JSVal) (part : String) (rest : List String),
        v.isObjectLike = false → traverse v (part :: rest) = none) ∧
    (∀ (v w : JSVal) (part : String) (rest : List String),
        v.isObjectLike = true → v.getKey part = some w →
        traverse v (part :: rest) = traverse w rest) ∧
    (∀ (v : JSVal) (part : String) (rest : List String),
        v.isObjectLike = true → v.getKey part = none →
        traverse v (part :: rest) = none) ∧
    resolveValue (JSVal.obj [("a", JSVal.obj [("b", JSVal.num 5)])]) ["a.b"]
      = JSVal.num 5 ∧
    resolveValue (JSVal.obj [("a", JSVal.obj [("b", JSVal.undef)]), ("c", JSVal.num 7)])
      ["a.b", "c"] = JSVal.num 7 ∧
    resolveValue (JSVal.obj [("a", JSVal.null), ("c", JSVal.num 7)]) ["a.b", "c"]
      = JSVal.num 7 := by
  refine ⟨?_, ?_, ?_, ?_, ?_, ?_, rfl, rfl, rfl⟩
  · intro item key rest hd ht; simp [resolveValue, hd, ht]
  · intro item key rest hd ht; simp [resolveValue, hd, ht, JSVal.isUndef]
  · intro item key rest v hd ht hv; simp [resolveValue, hd, ht, hv]
  · intro v part rest ho; simp [traverse, ho]
  · intro v w part rest ho hk; simp [traverse, ho, hk]
  · intro v part rest ho hk; simp [traverse, ho, hk]

/-- Witness for claim C3: the third clause applied to the record
`\x7ba: \x7bb: 5\x7d\x7d`, candidate `"a.b"` and a further candidate that is then
never consulted. -/
theorem c3_witness :
    resolveValue (JSVal.obj [("a", JSVal.obj [("b", JSVal.num 5)])]) ["a.b", "zz"]
      = JSVal.num 5 :=
  c3_dot_path_resolution.2.2.1 (JSVal.obj [("a", JSVal.obj [("b", JSVal.num 5)])])
    "a.b" ["zz"] (JSVal.num 5) rfl rfl rfl

/-- Claim C4: when no candidate of the field named `id` yields a defined
value and no transformer is registered for `id`, the resolved value is
the 0-based positional index of the record; with mapping
`\x7bid: ["missingKey"]\x7d` and three empty records the output ids are 0, 1, 2
in order. -/
theorem c4_id_index_fallback :
    (∀ (ts : Transformers) (item : JSVal) (index : Nat) (model : Model)
        (keys : List String),
        resolveValue item keys = JSVal.undef → alookup ts "id" = none →
        processField ts item index model "id" (some keys) =
          setField model "id" (JSVal.num index)) ∧
    generateModel (JSVal.arr [JSVal.obj [], JSVal.obj [], JSVal.obj []])
        [("id", some ["missingKey"])] noOptions =
      [[("id", JSVal.num 0)], [("id", JSVal.num 1)], [("id", JSVal.num 2)]] := by
  refine ⟨?_, rfl⟩
  intro ts item index model keys h1 h2
  simp [processField, resolveFieldValue, h1, h2, JSVal.isUndef]

/-- Witness for claim C4: the fallback clause at an empty record, index 5. -/
theorem c4_witness :
    processField [] (JSVal.obj []) 5 [] "id" (some ["missingKey"]) =
      setField [] "id" (JSVal.num 5) :=
  c4_id_index_fallback.1 [] (JSVal.obj []) 5 [] ["missingKey"] rfl rfl

/-- Lookup after assigning a different key is unchanged. -/
theorem alookup_setField_ne {α : Type} (m : List (String × α)) (k key : String)
    (v : α) (h : key ≠ k) : alookup (setField m k v) key = alookup m key := by
  have hb : (k == key) = false := beq_eq_false_iff_ne.mpr (Ne.symm h)
  induction m with
  | nil => simp [setField, alookup, hb]
  | cons e rest ih =>
    cases hek : (e.1 == k) with
    | true =>
      have he1 : e.1 = k := beq_iff_eq.mp hek
      simp [setField, alookup, hek, hb, he1, Ne.symm h]
    | false => simp [setField, alookup, hek, ih]

/-- Lookup after assigning the same key gives the assigned value. -/
theorem alookup_setField_self {α : Type} (m : List (String × α)) (k : String)
    (v : α) : alookup (setField m k v) k = some v := by
  induction m with
  | nil => simp [setField, alookup]
  | cons e rest ih =>
    cases hek : (e.1 == k) with
    | true => simp [setField, alookup, hek]
    | false => simp [setField, alookup, hek, ih]

/-- Claim C5 counterexample.  The claim says that a field whose
candidate list is empty never appears in the model unless defaults
supply it.  But an empty candidate list is an array, so the field is not
skipped: with mapping `\x7bid: []\x7d`, an empty record, empty defaults and no
transformers, the scan over zero candidates leaves the value undefined
and the `id` index fallback then fires, so the model does contain `id`
(with value 0) although the defaults (second conjunct) do not supply it. -/
theorem c5_counterexample :
    modelBeforePP [("id", some [])] [] [] (JSVal.obj []) 0 = [("id", JSVal.num 0)] ∧
    alookup ([] : Model) "id" = none :=
  ⟨rfl, rfl⟩

/-- Claim C5 amended: for every target field all of whose entries in the
field-mapping table either are absent or not a sequence, or have an
empty candidate list while the field is not named `id` and has no
registered transformer, the model built before the post-process hook
binds that field exactly as the defaults do (in particular it does not
contain the field unless the defaults supply it).  The exceptions are
forced by the code: an empty candidate list is not skipped, so the `id`
index fallback and any registered transformer still run on it. -/
theorem c5_amended_skipped_fields
    (fm : FieldMapping) (ts : Transformers) (ds : Model) (item : JSVal)
    (index : Nat) (field : String)
    (h : ∀ spec, (field, spec) ∈ fm →
        spec = none ∨ (spec = some [] ∧ field ≠ "id" ∧ alookup ts field = none)) :
    alookup (modelBeforePP fm ts ds item index) field = alookup ds field := by
  induction fm generalizing ds with
  | nil => rfl
  | cons e fmrest ih =>
    have hstep : modelBeforePP (e :: fmrest) ts ds item index =
        modelBeforePP fmrest ts (processField ts item index ds e.1 e.2) item index := rfl
    rw [hstep, ih _ (fun spec hs => h spec (List.mem_cons_of_mem _ hs))]
    cases hek : (e.1 == field) with
    | true =>
      have he1 : e.1 = field := beq_iff_eq.mp hek
      have he : e = (field, e.2) := by
        cases e; simp_all
      rcases h e.2 (he ▸ List.mem_cons_self _ _) with hnone | ⟨hempty, hid, htr⟩
      · simp [processField, hnone]
      · simp [processField, hempty, he1, resolveFieldValue, resolveValue, htr,
          JSVal.isUndef, beq_eq_false_iff_ne.mpr hid]
    | false =>
      have hne : field ≠ e.1 := fun hf => by simp [hf] at hek
      cases hspec : e.2 with
      | none => simp [processField]
      | some keys =>
        simp only [processField]
        cases hval : (match alookup ts e.1 with
          | some f => f (resolveFieldValue item index e.1 keys) item
          | none => resolveFieldValue item index e.1 keys).isUndef with
        | true => simp [hval]
        | false => simp [hval, alookup_setField_ne _ _ _ _ hne]

/-- Witness for claim C5 amended: a field whose only mapping entry is
absent or not a sequence is left to the defaults even when the record
contains it. -/
theorem c5_witness :
    alookup (modelBeforePP [("title", none)] [] [("x", JSVal.num 1)]
        (JSVal.obj [("title", JSVal.str "T")]) 0) "title" =
      alookup [("x", JSVal.num 1)] "title" :=
  c5_amended_skipped_fields [("title", none)] [] [("x", JSVal.num 1)]
    (JSVal.obj [("title", JSVal.str "T")]) 0 "title"
    (fun spec hs => by
      simp only [List.mem_singleton, Prod.mk.injEq] at hs
      exact Or.inl hs.2)

/-- An indexed map whose function ignores the index is a plain map. -/
theorem mapWithIdx_eq_map {α β : Type} (f : α → Nat → β) (g : α → β)
    (h : ∀ a i, f a i = g a) : ∀ (l : List α) (i : Nat), mapWithIdx f l i = l.map g
  | [], _ => rfl
  | a :: as, i => by simp [mapWithIdx, h a i, mapWithIdx_eq_map f g h as (i + 1)]

/-- Claim C6: when a transformer is registered for a field being
processed, it is invoked with the resolved value and the source record,
and its return value becomes the final value of the field — assigned
onto the model when defined, and suppressing the assignment when
undefined.  Consequently (second conjunct) a transformer returning a
fixed literal makes the field equal that literal in every output model
regardless of the source data. -/
theorem c6_transformer :
    (∀ (ts : Transformers) (item : JSVal) (index : Nat) (model : Model)
        (field : String) (keys : List String) (f : JSVal → JSVal → JSVal),
        alookup ts field = some f →
        processField ts item index model field (some keys) =
          (let w := f (resolveFieldValue item index field keys) item
           if w.isUndef then model else setField model field w)) ∧
    (∀ (items : List JSVal),
        generateModel (JSVal.arr items) [("title", some ["title"])]
          ⟨some [("title", fun _ _ => JSVal.str "X")], none, none⟩ =
        items.map (fun _ => [("title", JSVal.str "X")])) := by
  constructor
  · intro ts item index model field keys f hf
    simp [processField, hf]
  · intro items
    show mapWithIdx (generateOne [("title", some ["title"])]
        ⟨some [("title", fun _ _ => JSVal.str "X")], none, none⟩) items 0 =
      items.map (fun _ => [("title", JSVal.str "X")])
    exact mapWithIdx_eq_map
      (generateOne [("title", some ["title"])]
        ⟨some [("title", fun _ _ => JSVal.str "X")], none, none⟩)
      (fun _ => [("title", JSVal.str "X")]) (fun a i => rfl) items 0

/-- Witness for claim C6: a transformer registered for `title` that
returns the literal `"X"` makes the processed field equal `"X"`. -/
theorem c6_witness :
    processField [("title", fun _ _ => JSVal.str "X")] (JSVal.obj []) 3 []
        "title" (some ["k"]) = [("title", JSVal.str "X")] :=
  (c6_transformer.1 [("title", fun _ _ => JSVal.str "X")] (JSVal.obj []) 3 []
    "title" ["k"] (fun _ _ => JSVal.str "X") rfl).trans rfl

/-- Claim C7 counterexample.  The claim says the suffix is appended
exactly when the link field is present in the model and the suffix
feature is enabled.  But the code tests `model.link &&` (truthiness):
with default options, a record whose link resolves to the empty string
produces a model whose link field is present yet left without the
suffix. -/
theorem c7_counterexample :
    generateDataModel (JSVal.arr [JSVal.obj [("link", JSVal.str "")]]) [] noDMOptions =
      [[("id", JSVal.num 0), ("link", JSVal.str "")]] ∧
    JSVal.str "" ≠ JSVal.str ("" ++ "?ref=bookmarksfor.dev") := by
  refine ⟨rfl, fun h => ?_⟩
  injection h with h
  exact absurd h (by decide)

/-- Claim C7 amended: the built-in post-process of `generateDataModel`
appends the configured suffix to the link field exactly when the link
value is truthy (not merely present: undefined, empty string, 0, false
and null links are left alone), the suffix feature is enabled and the
suffix string is truthy: when the link is not truthy, or the feature is
disabled, or the suffix string is absent or empty, the model is
returned unchanged.  With default options, a model whose link
resolved to `"http://x.com"` is output with link
`"http://x.com?ref=bookmarksfor.dev"`; with `addRefToLink` false the
link is unchanged. -/
theorem c7_amended_link_decoration :
    (∀ (addRef : Option Bool) (ref : Option String) (model : Model)
        (item : JSVal) (index : Nat),
        ((alookup model "link").getD JSVal.undef).truthy = false →
        dataModelPostProcess addRef ref model item index = model) ∧
    (∀ (ref : Option String) (model : Model) (item : JSVal) (index : Nat),
        dataModelPostProcess (some false) ref model item index = model) ∧
    (∀ (addRef : Option Bool) (ref : Option String) (model : Model)
        (item : JSVal) (index : Nat),
        ref.getD "" = "" →
        dataModelPostProcess addRef ref model item index = model) ∧
    (∀ (ref : String) (model : Model) (item : JSVal) (index : Nat),
        ((alookup model "link").getD JSVal.undef).truthy = true → ref ≠ "" →
        dataModelPostProcess (some true) (some ref) model item index =
          setField model "link"
            (JSVal.str (((alookup model "link").getD JSVal.undef).toJSString ++ ref))) ∧
    generateDataModel (JSVal.arr [JSVal.obj [("link", JSVal.str "http://x.com")]])
        [] noDMOptions =
      [[("id", JSVal.num 0), ("link", JSVal.str "http://x.com?ref=bookmarksfor.dev")]] ∧
    generateDataModel (JSVal.arr [JSVal.obj [("link", JSVal.str "http://x.com")]])
        [] ⟨none, none, none, some false, none⟩ =
      [[("id", JSVal.num 0), ("link", JSVal.str "http://x.com")]] := by
  refine ⟨?_, ?_, ?_, ?_, rfl, rfl⟩
  · intro addRef ref model item index h
    simp [dataModelPostProcess, h]
  · intro ref model item index
    simp [dataModelPostProcess]
  · intro addRef ref model item index h
    simp [dataModelPostProcess, h]
  · intro ref model item index h1 h2
    simp [dataModelPostProcess, h1, h2]

/-- Witness for claim C7 amended: the truthy-link clause at a model with
link `"u"` and suffix `"?r"`. -/
theorem c7_witness :
    dataModelPostProcess (some true) (some "?r") [("link", JSVal.str "u")]
        (JSVal.obj []) 0 = [("link", JSVal.str "u?r")] :=
  (c7_amended_link_decoration.2.2.2.1 "?r" [("link", JSVal.str "u")] (JSVal.obj []) 0
    rfl (by decide)).trans rfl

/-- A field none of whose caller entries is array-valued keeps its base
candidate list through the mapping merge. -/
theorem alookup_mergeMappings_skip (user : FieldMapping) (field : String) :
    ∀ (base : FieldMapping),
      (∀ spec, (field, spec) ∈ user → spec = none) →
      alookup (mergeMappings base user) field = alookup base field := by
  induction user with
  | nil => intro base _; rfl
  | cons e rest ih =>
    intro base h
    cases e with
    | mk k spec =>
      cases spec with
      | none =>
        exact ih base (fun s hs => h s (List.mem_cons_of_mem _ hs))
      | some v =>
        have hk : field ≠ k := by
          intro hf
          have := h (some v) (by rw [hf]; exact List.mem_cons_self _ _)
          exact Option.noConfusion this
        have hstep : mergeMappings base ((k, some v) :: rest) =
            mergeMappings (setField base k (some v)) rest := rfl
        rw [hstep, ih _ (fun s hs => h s (List.mem_cons_of_mem _ hs))]
        exact alookup_setField_ne base k field (some v) hk

/-- A field with an array-valued caller entry (under distinct caller
keys) ends up with exactly that candidate list after the mapping merge,
whatever the base mapping held. -/
theorem alookup_mergeMappings_mem (user : FieldMapping) (field : String)
    (cands : List String) :
    ∀ (base : FieldMapping),
      (user.map Prod.fst).Nodup → (field, some cands) ∈ user →
      alookup (mergeMappings base user) field = some (some cands) := by
  induction user with
  | nil => intro base _ hm; cases hm
  | cons e rest ih =>
    intro base hnd hm
    rw [List.map_cons, List.nodup_cons] at hnd
    obtain ⟨h1, h2⟩ := hnd
    rcases List.mem_cons.mp hm with heq | hmem
    · subst heq
      have hstep : mergeMappings base ((field, some cands) :: rest) =
          mergeMappings (setField base field (some cands)) rest := rfl
      rw [hstep,
        alookup_mergeMappings_skip rest field _
          (fun s hsm => absurd (List.mem_map_of_mem Prod.fst hsm) h1),
        alookup_setField_self]
    · cases e with
      | mk k spec =>
        cases spec with
        | none =>
          have hstep : mergeMappings base ((k, none) :: rest) =
              mergeMappings base rest := rfl
          rw [hstep]; exact ih base h2 hmem
        | some v =>
          have hstep : mergeMappings base ((k, some v) :: rest) =
              mergeMappings (setField base k (some v)) rest := rfl
          rw [hstep]; exact ih _ h2 hmem

/-- Claim C8: in `generateDataModel`, a caller entry with an array of
candidates replaces the default candidate list of that field outright
(first conjunct, for caller mappings without duplicate keys), while a
field with no array-valued caller entry keeps its default candidate list
(second conjunct).  Concretely, overriding `id` with `["customId"]`
makes the merged table hold exactly `["customId"]` for `id` and the
default `["title"]` for `title`, and on a record offering both `guid`
(an old default candidate) and `customId`, the output id is taken from
`customId`, not from `guid`. -/
theorem c8_mapping_override :
    (∀ (user : FieldMapping) (field : String) (cands : List String),
        (user.map Prod.fst).Nodup → (field, some cands) ∈ user →
        alookup (mergeMappings defaultDataModelMapping user) field =
          some (some cands)) ∧
    (∀ (user : FieldMapping) (field : String),
        (∀ spec, (field, spec) ∈ user → spec = none) →
        alookup (mergeMappings defaultDataModelMapping user) field =
          alookup defaultDataModelMapping field) ∧
    alookup (mergeMappings defaultDataModelMapping [("id", some ["customId"])]) "id" =
      some (some ["customId"]) ∧
    alookup (mergeMappings defaultDataModelMapping [("id", some ["customId"])]) "title" =
      some (some ["title"]) ∧
    generateDataModel
        (JSVal.arr [JSVal.obj [("guid", JSVal.num 7), ("customId", JSVal.num 3)]])
        [("id", some ["customId"])] noDMOptions =
      [[("id", JSVal.num 3)]] :=
  ⟨fun user field cands hnd hm => alookup_mergeMappings_mem user field cands _ hnd hm,
   fun user field h => alookup_mergeMappings_skip user field _ h,
   rfl, rfl, rfl⟩

/-- Witness for claim C8: the replacing clause at the singleton caller
mapping overriding `id`. -/
theorem c8_witness :
    alookup (mergeMappings defaultDataModelMapping [("id", some ["x"])]) "id" =
      some (some ["x"]) :=
  c8_mapping_override.1 [("id", some ["x"])] "id" ["x"] (by decide) (by decide)

/-- Claim C9: when the records argument is absent (null or undefined) or
not an array — any value failing `!data || !Array.isArray(data)` —
`generateModel` returns the empty list.  (The embedding is a total
function, mirroring that no error is raised.) -/
theorem c9_non_array_input (data : JSVal) (fm : FieldMapping)
    (opts : TransformOptions) (h : data.isArray = false) :
    generateModel data fm opts = [] := by
  cases data <;> simp_all [generateModel, JSVal.isArray]

/-- Witness for claim C9: the null input. -/
theorem c9_witness : generateModel JSVal.null [] noOptions = [] :=
  c9_non_array_input JSVal.null [] noOptions rfl

/-- Claim C10: the post-process hook `generateDataModel` passes to
`generateModel` is always its built-in link-decoration hook; a
caller-supplied hook is unconditionally discarded and never invoked.
First conjunct: the output never depends on the caller hook.  Second
conjunct: the options reaching the engine carry exactly the built-in
hook over the merged knobs.  Third conjunct: a caller hook that would
replace the whole model has no effect. -/
theorem c10_postprocess_replaced :
    (∀ (data : JSVal) (fm : FieldMapping) (t : Option Transformers)
        (d : Option Model) (pp pp2 : Option (Model → JSVal → Nat → Model))
        (a : Option Bool) (r : Option String),
        generateDataModel data fm ⟨t, d, pp, a, r⟩ =
          generateDataModel data fm ⟨t, d, pp2, a, r⟩) ∧
    (∀ (data : JSVal) (fm : FieldMapping) (opts : DataModelTransformOptions),
        generateDataModel data fm opts =
          generateModel data (mergeMappings defaultDataModelMapping fm)
            ⟨some (opts.transformers.getD []), some (opts.defaults.getD []),
             some (dataModelPostProcess
               (match opts.addRefToLink with | some b => some b | none => some true)
               (match opts.refParam with
                | some s => some s
                | none => some "?ref=bookmarksfor.dev"))⟩) ∧
    generateDataModel (JSVal.arr [JSVal.obj []]) []
        ⟨none, none, some (fun _ _ _ => [("hacked", JSVal.str "yes")]), none, none⟩ =
      [[("id", JSVal.num 0)]] :=
  ⟨fun _ _ _ _ _ _ _ _ => rfl, fun _ _ _ => rfl, rfl⟩

end GenModel
